import Mathlib

/-!
StorageSystemMutations::read

A shallow embedding of `dbms/src/Storages/System/StorageSystemMutations.cpp`
(the `system.mutations` table) and the properties of its `read` pipeline:
collect the replicated tables, build the `(database, table)` candidate block,
run the pushdown filter, fetch the mutation statuses of the surviving tables and
materialise one row per status.

Conventions of the embedding.

* `String` is `std::string`; the ordering of `std::map<String, _>` keys is the
  lexicographic order of the characters (`keyLess`).
* `std::map<String, V>` is an association list kept in key order, with
  `mapFind` for lookup and `mapAssign` for `m[k] = v`.
* A column is the sequence of `Field`s inserted into it; a `Block` is the list
  of its columns with name and type. The candidate block of two columns is given
  by its rows, since both columns are filled in the same iteration.
* Calls to collaborators whose code is outside the file (the catalog, the
  pushdown filter, the per-table status provider) are recorded in a trace of
  `Event`s, so that "is invoked" is a statement about the trace.
* Exceptions and aborts are values of `Exception` in the `result` of the
  outcome. Exceptions thrown inside the collaborators are not modelled.
* The conversions `UInt64(status.create_time)` and `UInt64(status.is_done)` keep
  the value: a creation time is a non-negative number of seconds, a flag is 0 or 1.
-/

namespace DB

/-! Part 1: definitions -/

/-- A `Field`: the dynamically typed value that `IColumn::insert` takes. -/
inductive Field where
  | str (s : String)
  | uint64 (n : Nat)
  | int64 (i : Int)
  | array (a : List Field)

instance : Inhabited Field := ⟨Field.uint64 0⟩

/-- The data types named in the constructor of `StorageSystemMutations`. -/
inductive DataType where
  | DataTypeString
  | DataTypeDateTime
  | DataTypeInt64
  | DataTypeUInt8
  | DataTypeArray (nested : DataType)
  deriving DecidableEq, Repr

/-- One column of a block: `ColumnWithTypeAndName`. -/
structure ColumnWithTypeAndName where
  column : List Field
  type : DataType
  name : String

/-- A `Block` is the list of its columns, in position order. -/
abbrev Block := List ColumnWithTypeAndName

/-- The streams returned by `read`; a `OneBlockInputStream` is the block it holds. -/
abbrev BlockInputStreams := List Block

/-- The type `MutableColumns`: one growing column per position. -/
abbrev MutableColumns := List (List Field)

/-- The method `Block::rows()`: the number of rows, read off the first column. -/
def Block.rows : Block → Nat
  | [] => 0
  | c :: _ => c.column.length

/-- The `i`-th row of a block: the `i`-th value of every column, in column order. -/
def Block.row (b : Block) (i : Nat) : List Field :=
  b.map (fun c => c.column.getD i default)

/-- All rows of a block, top to bottom. -/
def Block.toRows (b : Block) : List (List Field) :=
  (List.range b.rows).map b.row

/-- The column names of a block, in position order. -/
def Block.names (b : Block) : List String :=
  b.map (fun c => c.name)

/-- The struct `MergeTreeMutationStatus`, with the fields `read` uses. `create_time` is a
`time_t` holding seconds since the epoch. -/
structure MergeTreeMutationStatus where
  id : String
  command : String
  create_time : Nat
  block_numbers : List (String × Int)
  parts_to_do : Int
  is_done : Bool

/-- Modelled from the spec: the declaration of `MergeTreeMutationStatus` and the
status provider `getMutationsStatus` that fills it are missing from the source
files at hand. Section 3 of the specification states, for every entry a provider
returns, that the partition ids of its `(partition_id, block_number)` pairs are
unique within the entry and that `parts_to_do` is a non-negative integer. -/
def MergeTreeMutationStatus.WellFormed (status : MergeTreeMutationStatus) : Prop :=
  (status.block_numbers.map Prod.fst).Nodup ∧ 0 ≤ status.parts_to_do

/-- A storage engine instance behind a `StoragePtr`: either a
`StorageReplicatedMergeTree`, which carries the statuses its
`getMutationsStatus()` returns, or any other engine. -/
inductive IStorage where
  | StorageReplicatedMergeTree (mutations : List MergeTreeMutationStatus)
  | other (engine : String)

/-- The test `dynamic_cast<const StorageReplicatedMergeTree *>(table.get())`. -/
def IStorage.isReplicated : IStorage → Bool
  | .StorageReplicatedMergeTree _ => true
  | .other _ => false

/-- What `context.getDatabases()` and the table iterator of each database yield:
the databases by name, each with its tables by name. -/
abbrev Databases := List (String × List (String × IStorage))

/-- The order of `std::map<String, _>` keys: `std::less<std::string>`. -/
def keyLess (a b : String) : Bool :=
  decide (a.data < b.data)

/-- The lookup `m.find(k)`: the value mapped to `k`, if any. -/
def mapFind {V : Type} (k : String) : List (String × V) → Option V
  | [] => none
  | (k', v) :: rest => if k' = k then some v else mapFind k rest

/-- A new node `(k, v)` put at its place in key order. -/
def mapInsertNode {V : Type} (k : String) (v : V) : List (String × V) → List (String × V)
  | [] => [(k, v)]
  | (k', v') :: rest =>
    if keyLess k k' then (k, v) :: (k', v') :: rest
    else (k', v') :: mapInsertNode k v rest

/-- The assignment `m[k] = v`: the node of `k` gets the value `v`, and a new node is
inserted when `k` has none. -/
def mapAssign {V : Type} (k : String) (v : V) (m : List (String × V)) : List (String × V) :=
  match mapFind k m with
  | some _ => m.map (fun node => if node.1 = k then (k, v) else node)
  | none => mapInsertNode k v m

/-- The local `std::map<String, std::map<String, StoragePtr>> replicated_tables`. -/
abbrev ReplicatedTables := List (String × List (String × IStorage))

/-- The value `replicated_tables[database][table]` when both keys are present. -/
def find2 (m : ReplicatedTables) (database table : String) : Option IStorage :=
  match mapFind database m with
  | some tables => mapFind table tables
  | none => none

/-- The statement `replicated_tables[db][name] = storage`: `operator[]` on the outer map
yields the inner map of `db` (a new empty one when `db` has none), in which `name` is
assigned. -/
def assignTable (db name : String) (storage : IStorage) (m : ReplicatedTables) :
    ReplicatedTables :=
  mapAssign db (mapAssign name storage ((mapFind db m).getD [])) m

/-- The columns set by the constructor of `StorageSystemMutations`. -/
def columns : List (String × DataType) :=
  [ ("database", .DataTypeString),
    ("table", .DataTypeString),
    ("mutation_id", .DataTypeString),
    ("command", .DataTypeString),
    ("create_time", .DataTypeDateTime),
    ("block_numbers.partition_id", .DataTypeArray .DataTypeString),
    ("block_numbers.number", .DataTypeArray .DataTypeInt64),
    ("parts_to_do", .DataTypeInt64),
    ("is_done", .DataTypeUInt8) ]

/-- What `read` can end with instead of streams. -/
inductive Exception where
  | UnknownColumn (name : String)
  | bad_cast (database table : String)
  deriving DecidableEq, Repr

/-- The calls `read` makes to its collaborators. -/
inductive Event where
  | getDatabases
  | filterBlockWithQuery
  | getMutationsStatus (database table : String)
  deriving DecidableEq, Repr

/-- Modelled from the spec: `check(column_names)` is inherited from the storage base
class, whose code is missing from the source files at hand. Step 1 of section 4.4 and
section 7 of the specification: validate the requested columns against the fixed
output schema; any unknown name fails with `UnknownColumn`. -/
def check : List String → Except Exception Unit
  | [] => .ok ()
  | name :: rest =>
    if name ∈ columns.map Prod.fst then check rest else .error (.UnknownColumn name)

/-- Lines 46-50: the replicated tables of one database are assigned into the map. -/
def collectTables (db : String) (tables : List (String × IStorage))
    (replicated_tables : ReplicatedTables) : ReplicatedTables :=
  tables.foldl
    (fun m entry => if entry.2.isReplicated then assignTable db entry.1 entry.2 m else m)
    replicated_tables

/-- Lines 46-50: the loop over `context.getDatabases()`. -/
def collectReplicatedTables (context : Databases) : ReplicatedTables :=
  context.foldl (fun m db => collectTables db.1 db.2 m) []

/-- Lines 52-62: one `(database, table)` row per entry of `replicated_tables`; the two
values of a row are inserted into `col_database` and `col_table` in the same iteration. -/
def candidateRows (replicated_tables : ReplicatedTables) : List (String × String) :=
  replicated_tables.flatMap (fun db => db.2.map (fun table => (db.1, table.1)))

/-- Lines 64-65: the column `database` of the candidate block. -/
def col_database (replicated_tables : ReplicatedTables) : List String :=
  (candidateRows replicated_tables).map Prod.fst

/-- Lines 64-65: the column `table` of the candidate block. -/
def col_table (replicated_tables : ReplicatedTables) : List String :=
  (candidateRows replicated_tables).map Prod.snd

/-- Lines 96-104: the two arrays built from the `block_numbers` of a status, one pair
at a time. -/
def blockNumberArrays (block_numbers : List (String × Int)) : List Field × List Field :=
  block_numbers.foldl
    (fun arrays pair => (arrays.1 ++ [Field.str pair.1], arrays.2 ++ [Field.int64 pair.2]))
    ([], [])

/-- The call `res_columns[col_num]->insert(x)`. -/
def insertAt : MutableColumns → Nat → Field → MutableColumns
  | [], _, _ => []
  | c :: cs, 0, x => (c ++ [x]) :: cs
  | c :: cs, n + 1, x => c :: insertAt cs n x

/-- Lines 94-117, the body of the loop over `states`: nine inserts, at positions
`0` to `8`. -/
def insertStatus (database table : String) (res_columns : MutableColumns)
    (status : MergeTreeMutationStatus) : MutableColumns :=
  let arrays := blockNumberArrays status.block_numbers
  let c0 := insertAt res_columns 0 (.str database)
  let c1 := insertAt c0 1 (.str table)
  let c2 := insertAt c1 2 (.str status.id)
  let c3 := insertAt c2 3 (.str status.command)
  let c4 := insertAt c3 4 (.uint64 status.create_time)
  let c5 := insertAt c4 5 (.array arrays.1)
  let c6 := insertAt c5 6 (.array arrays.2)
  let c7 := insertAt c6 7 (.int64 status.parts_to_do)
  insertAt c7 8 (.uint64 (if status.is_done then 1 else 0))

/-- Lines 85-118, the loop over the rows of the filtered block. For each row the
storage is taken from `replicated_tables[database][table]`, cast to
`StorageReplicatedMergeTree &` and asked for its statuses. `operator[]` yields a null
`StoragePtr` for a missing key; the reference cast of what it points to, as that of
another engine, ends the call with `std::bad_cast`. The first component is the list of
provider calls made. -/
def readLoop (replicated_tables : ReplicatedTables) :
    List (String × String) → MutableColumns → List Event × Except Exception MutableColumns
  | [], res_columns => ([], .ok res_columns)
  | (database, table) :: rest, res_columns =>
    match find2 replicated_tables database table with
    | none => ([], .error (.bad_cast database table))
    | some (.other _) => ([], .error (.bad_cast database table))
    | some (.StorageReplicatedMergeTree states) =>
      let next := readLoop replicated_tables rest
        (states.foldl (insertStatus database table) res_columns)
      (Event.getMutationsStatus database table :: next.1, next.2)

/-- The call `getSampleBlock().cloneEmptyColumns()`: one empty column per schema column. -/
def cloneEmptyColumns : MutableColumns :=
  columns.map (fun _ => [])

/-- Lines 120-122: the sample block with the filled columns moved in, by position. -/
def resultBlock (res_columns : MutableColumns) : Block :=
  List.zipWith (fun c col => { column := col, type := c.2, name := c.1 }) columns res_columns

/-- What one call of `read` did: the collaborator calls in order, and the streams it
returned or the exception it ended with. -/
structure ReadOutcome where
  trace : List Event
  result : Except Exception BlockInputStreams

/-- The function `StorageSystemMutations::read`. `filterBlockWithQuery` stands for
`VirtualColumnUtils::filterBlockWithQuery(query_info.query, ·, context)` applied to the
two-column candidate block, given as its rows. -/
def read (column_names : List String)
    (filterBlockWithQuery : List (String × String) → List (String × String))
    (context : Databases) : ReadOutcome :=
  match check column_names with
  | .error e => { trace := [], result := .error e }
  | .ok _ =>
    let replicated_tables := collectReplicatedTables context
    let filtered_block := filterBlockWithQuery (candidateRows replicated_tables)
    if filtered_block.isEmpty then
      { trace := [.getDatabases, .filterBlockWithQuery], result := .ok [] }
    else
      let looped := readLoop replicated_tables filtered_block cloneEmptyColumns
      { trace := [.getDatabases, .filterBlockWithQuery] ++ looped.1,
        result := match looped.2 with
          | .ok res_columns => .ok [resultBlock res_columns]
          | .error e => .error e }

/-- The rows of all blocks of the returned streams; `none` when `read` failed. -/
def ReadOutcome.rows (o : ReadOutcome) : Option (List (List Field)) :=
  match o.result with
  | .ok streams => some (streams.flatMap Block.toRows)
  | .error _ => none

/-- The number of calls of the status provider of `database.table` in a trace. -/
def fetchCount (trace : List Event) (database table : String) : Nat :=
  trace.count (Event.getMutationsStatus database table)

/-- The keys of a map, in iteration order. -/
def mapKeys {V : Type} (m : List (String × V)) : List String :=
  m.map Prod.fst

/-- Both levels of `replicated_tables` have unique keys. -/
def MapsUnique (m : ReplicatedTables) : Prop :=
  (mapKeys m).Nodup ∧ ∀ node ∈ m, (mapKeys node.2).Nodup

/-- The tables of the catalog as `(database, table, storage)` entries, in the order in
which lines 47-50 visit them. -/
def tableEntries (context : Databases) : List (String × String × IStorage) :=
  context.flatMap (fun db => db.2.map (fun table => (db.1, table.1, table.2)))

/-- Line 49-50 for one visited table. -/
def collectStep (m : ReplicatedTables) (e : String × String × IStorage) : ReplicatedTables :=
  if e.2.2.isReplicated then assignTable e.1 e.2.1 e.2.2 m else m

/-- The value found at `(d, t)` after the visits `es`, from the value found before:
the storage of the last replicated entry of that name, if there is one. -/
def lastAssigned (d t : String) (es : List (String × String × IStorage))
    (init : Option IStorage) : Option IStorage :=
  es.foldl (fun acc e => if e.1 = d ∧ e.2.1 = t ∧ e.2.2.isReplicated = true then some e.2.2
    else acc) init

/-- No two tables of the catalog share their `(database, table)` name: the databases
are the entries of a `std::map` by name, and the tables of a database are iterated by
name. -/
def UniqueNames (context : Databases) : Prop :=
  ((tableEntries context).map (fun e => (e.1, e.2.1))).Nodup

/-- The storage instance named `database.table` in the catalog. -/
def getTable (context : Databases) (database table : String) : Option IStorage :=
  ((tableEntries context).find? (fun e => e.1 = database ∧ e.2.1 = table)).map (fun e => e.2.2)

/-- The statuses the status provider of `database.table` returns: those of the
replicated storage of that name, and none where there is no such storage. -/
def providerEntries (context : Databases) (database table : String) :
    List MergeTreeMutationStatus :=
  match getTable context database table with
  | some (.StorageReplicatedMergeTree mutations) => mutations
  | _ => []

/-- The row of one status as the contract writes it: database, table, id, command,
creation time, the partition ids, the paired block numbers, the parts to do and the
done flag as 0 or 1. -/
def specRow (database table : String) (entry : MergeTreeMutationStatus) : List Field :=
  [ .str database, .str table, .str entry.id, .str entry.command,
    .uint64 entry.create_time,
    .array (entry.block_numbers.map (fun pair => Field.str pair.1)),
    .array (entry.block_numbers.map (fun pair => Field.int64 pair.2)),
    .int64 entry.parts_to_do,
    .uint64 (if entry.is_done then 1 else 0) ]

/-- The nine columns that hold the given rows. -/
def columnsOf (rows : List (List Field)) : MutableColumns :=
  (List.range 9).map (fun j => rows.map (fun r => r.getD j default))

/-- The statuses `replicated_tables[database][table]` returns. -/
def entriesIn (m : ReplicatedTables) (database table : String) :
    List MergeTreeMutationStatus :=
  match find2 m database table with
  | some (.StorageReplicatedMergeTree states) => states
  | _ => []

/-- Modelled from the spec: the code of `VirtualColumnUtils::filterBlockWithQuery` is
missing from the source files at hand. Section 4.3 of the specification: given the
candidate relation, the filter returns the surviving subsequence of its rows. -/
def FilterContract (filterBlockWithQuery : List (String × String) → List (String × String)) :
    Prop :=
  ∀ block, (filterBlockWithQuery block).Sublist block

/-- The requested columns are all columns of the table. -/
def ValidColumns (column_names : List String) : Prop :=
  ∀ name ∈ column_names, name ∈ columns.map Prod.fst

/-- The `(database, table)` of an output row: its first two values. -/
def rowKey : List Field → Option (String × String)
  | .str database :: .str table :: _ => some (database, table)
  | _ => none

/-- The statuses a storage instance returns from its status provider; an engine without
one returns none. -/
def IStorage.mutations : IStorage → List MergeTreeMutationStatus
  | .StorageReplicatedMergeTree mutations => mutations
  | .other _ => []

/-- Every status any status provider of the catalog returns. -/
def catalogEntries (context : Databases) : List MergeTreeMutationStatus :=
  (tableEntries context).flatMap (fun e => e.2.2.mutations)

/-- Modelled from the spec: the status providers are missing from the source files at
hand. Section 3 of the specification, for every entry a provider returns: unique
partition ids and a non-negative `parts_to_do`. -/
def ProvidersWellFormed (context : Databases) : Prop :=
  ∀ status ∈ catalogEntries context, status.WellFormed

/-- One mutation of three partitions, five parts to do, not done. -/
def entry0001 : MergeTreeMutationStatus :=
  { id := "0001", command := "DELETE WHERE x = 1", create_time := 1525132800,
    block_numbers := [("201801", 12), ("201802", 7), ("201803", 3)],
    parts_to_do := 5, is_done := false }

/-- Two databases: `db1` with the replicated tables `t1` (no mutations) and `t2` (one
mutation) and the table `t4` of another engine, `db2` with the replicated table `t3`. -/
def catalog : Databases :=
  [ ("db1", [ ("t1", .StorageReplicatedMergeTree []),
              ("t2", .StorageReplicatedMergeTree [entry0001]),
              ("t4", .other "MergeTree") ]),
    ("db2", [ ("t3", .StorageReplicatedMergeTree []) ]) ]

/-- The filter of a query without a condition on `database` or `table`. -/
def noPredicate (block : List (String × String)) : List (String × String) :=
  block

/-- The filter of a query with the condition `database = name`. -/
def databaseEquals (name : String) (block : List (String × String)) :
    List (String × String) :=
  block.filter (fun row => row.1 = name)

/-- The filter of a query with the condition `database = d AND table = t`. -/
def nameEquals (d t : String) (block : List (String × String)) : List (String × String) :=
  block.filter (fun row => row.1 = d ∧ row.2 = t)

/-! Part 2: lemmas and the claims -/

theorem mapFind_eq_none_iff {V : Type} (k : String) (m : List (String × V)) :
    mapFind k m = none ↔ k ∉ mapKeys m := by
  induction m with
  | nil => simp [mapFind, mapKeys]
  | cons node rest ih =>
    obtain ⟨k', v⟩ := node
    by_cases h : k' = k
    · simp [mapFind, mapKeys, h]
    · have h' : ¬ k = k' := fun e => h e.symm
      simp only [mapFind, h, if_false, ih, mapKeys, List.map_cons, List.mem_cons, h',
        false_or]

theorem mapFind_some_mem {V : Type} {k : String} {v : V} {m : List (String × V)}
    (h : mapFind k m = some v) : (k, v) ∈ m := by
  induction m with
  | nil => simp [mapFind] at h
  | cons node rest ih =>
    obtain ⟨k', v'⟩ := node
    by_cases hk : k' = k
    · simp only [mapFind, hk, if_true, Option.some.injEq] at h
      subst hk; subst h; exact List.mem_cons_self _ _
    · simp only [mapFind, hk, if_false] at h
      exact List.mem_cons_of_mem _ (ih h)

theorem mapFind_of_mem {V : Type} {k : String} {v : V} {m : List (String × V)}
    (hn : (mapKeys m).Nodup) (h : (k, v) ∈ m) : mapFind k m = some v := by
  induction m with
  | nil => simp at h
  | cons node rest ih =>
    obtain ⟨k', v'⟩ := node
    simp only [mapKeys, List.map_cons, List.nodup_cons] at hn
    rcases List.mem_cons.1 h with h | h
    · cases h; simp [mapFind]
    · have hk : k' ≠ k := by
        intro e; subst e
        exact hn.1 (List.mem_map.2 ⟨(k', v), h, rfl⟩)
      simp only [mapFind, hk, if_false]
      exact ih hn.2 h

theorem mapFind_cons {V : Type} (k k' : String) (v : V) (rest : List (String × V)) :
    mapFind k ((k', v) :: rest) = if k' = k then some v else mapFind k rest := rfl

theorem mapFind_replace {V : Type} (k k' : String) (v : V) (m : List (String × V)) :
    mapFind k' (m.map (fun node => if node.1 = k then (k, v) else node)) =
      if k' = k then (mapFind k m).map (fun _ => v) else mapFind k' m := by
  induction m with
  | nil => simp [mapFind]
  | cons node rest ih =>
    obtain ⟨k₀, v₀⟩ := node
    rw [List.map_cons]
    by_cases h0 : k₀ = k
    · subst h0
      rw [if_pos rfl, mapFind_cons, mapFind_cons, ih]
      by_cases h1 : k' = k₀
      · subst h1; simp
      · have h1' : ¬ k₀ = k' := fun e => h1 e.symm
        simp [h1, h1', mapFind_cons]
    · rw [if_neg h0, mapFind_cons, mapFind_cons, ih]
      by_cases h1 : k' = k
      · subst h1; simp [h0]
      · simp [h1, mapFind_cons]

theorem mapFind_mapInsertNode {V : Type} (k k' : String) (v : V) (m : List (String × V))
    (hk : mapFind k m = none) :
    mapFind k' (mapInsertNode k v m) = if k' = k then some v else mapFind k' m := by
  induction m with
  | nil =>
    by_cases h : k' = k
    · subst h; simp [mapInsertNode, mapFind]
    · have h' : ¬ k = k' := fun e => h e.symm
      simp [mapInsertNode, mapFind, h, h']
  | cons node rest ih =>
    obtain ⟨k₀, v₀⟩ := node
    have h0 : ¬ k₀ = k := by
      intro e; simp [mapFind, e] at hk
    have hr : mapFind k rest = none := by
      simpa [mapFind, h0] using hk
    by_cases hl : keyLess k k₀ = true
    · by_cases h : k' = k
      · subst h; simp [mapInsertNode, hl, mapFind]
      · have h' : ¬ k = k' := fun e => h e.symm
        simp [mapInsertNode, hl, mapFind, h, h']
    · by_cases h : k' = k
      · subst h
        simp only [mapInsertNode, hl, mapFind, h0, if_false, ih hr, if_true]
      · simp only [mapInsertNode, hl, mapFind, ih hr, h, if_false]

/-- Lookup after `m[k] = v`. -/
theorem mapFind_mapAssign {V : Type} (k k' : String) (v : V) (m : List (String × V)) :
    mapFind k' (mapAssign k v m) = if k' = k then some v else mapFind k' m := by
  unfold mapAssign
  cases hk : mapFind k m with
  | none => exact mapFind_mapInsertNode k k' v m hk
  | some v₀ => simp only [mapFind_replace, hk, Option.map_some']

theorem mapKeys_replace {V : Type} (k : String) (v : V) (m : List (String × V)) :
    mapKeys (m.map (fun node => if node.1 = k then (k, v) else node)) = mapKeys m := by
  induction m with
  | nil => rfl
  | cons node rest ih =>
    simp only [mapKeys, List.map_cons, List.cons.injEq] at ih ⊢
    refine ⟨?_, ih⟩
    by_cases h : node.1 = k
    · simp [h]
    · simp [h]

theorem mapKeys_mapInsertNode {V : Type} (k : String) (v : V) (m : List (String × V)) :
    (mapKeys (mapInsertNode k v m)).Perm (k :: mapKeys m) := by
  induction m with
  | nil => simp [mapInsertNode, mapKeys]
  | cons node rest ih =>
    obtain ⟨k₀, v₀⟩ := node
    by_cases hl : keyLess k k₀ = true
    · simp [mapInsertNode, hl, mapKeys]
    · simp only [mapInsertNode, hl, mapKeys, List.map_cons] at ih ⊢
      exact (List.Perm.cons k₀ ih).trans (List.Perm.swap k k₀ _)

/-- Assignment keeps the keys of a map unique. -/
theorem mapKeys_mapAssign_nodup {V : Type} (k : String) (v : V) (m : List (String × V))
    (hn : (mapKeys m).Nodup) : (mapKeys (mapAssign k v m)).Nodup := by
  unfold mapAssign
  cases hk : mapFind k m with
  | none =>
    simp only
    rw [(mapKeys_mapInsertNode k v m).nodup_iff]
    exact List.nodup_cons.2 ⟨(mapFind_eq_none_iff k m).1 hk, hn⟩
  | some v₀ =>
    simp only
    rw [mapKeys_replace]; exact hn

theorem mem_mapKeys_iff {V : Type} (k : String) (m : List (String × V)) :
    k ∈ mapKeys m ↔ ∃ v, mapFind k m = some v := by
  constructor
  · intro h
    cases hf : mapFind k m with
    | none => exact absurd h ((mapFind_eq_none_iff k m).1 hf)
    | some v => exact ⟨v, rfl⟩
  · rintro ⟨v, hv⟩
    by_contra hc
    rw [(mapFind_eq_none_iff k m).2 hc] at hv
    cases hv

theorem find2_assignTable (db name : String) (storage : IStorage) (m : ReplicatedTables)
    (d t : String) :
    find2 (assignTable db name storage m) d t =
      if d = db ∧ t = name then some storage else find2 m d t := by
  unfold find2 assignTable
  rw [mapFind_mapAssign]
  by_cases hd : d = db
  · subst hd
    simp only [if_true, true_and, mapFind_mapAssign]
    by_cases ht : t = name
    · simp [ht]
    · simp only [ht, if_false]
      cases mapFind d m with
      | none => simp [mapFind]
      | some tables => simp
  · simp [hd]

theorem MapsUnique_assignTable (db name : String) (storage : IStorage)
    (m : ReplicatedTables) (h : MapsUnique m) : MapsUnique (assignTable db name storage m) := by
  refine ⟨mapKeys_mapAssign_nodup _ _ _ h.1, ?_⟩
  intro node hnode
  have hf := mapFind_of_mem (mapKeys_mapAssign_nodup db
    (mapAssign name storage ((mapFind db m).getD [])) m h.1) (show (node.1, node.2) ∈ _ from hnode)
  rw [mapFind_mapAssign] at hf
  by_cases hd : node.1 = db
  · simp only [hd, if_true, Option.some.injEq] at hf
    rw [← hf]
    apply mapKeys_mapAssign_nodup
    cases hm : mapFind db m with
    | none => simp [mapKeys]
    | some tables => exact h.2 _ (mapFind_some_mem hm)
  · simp only [hd, if_false] at hf
    exact h.2 _ (mapFind_some_mem hf)

theorem collectTables_eq (db : String) (tables : List (String × IStorage))
    (m : ReplicatedTables) :
    collectTables db tables m =
      (tables.map (fun table => (db, table.1, table.2))).foldl collectStep m := by
  unfold collectTables
  rw [List.foldl_map]
  rfl

theorem collect_foldl_eq (context : Databases) (m : ReplicatedTables) :
    context.foldl (fun m db => collectTables db.1 db.2 m) m =
      (tableEntries context).foldl collectStep m := by
  induction context generalizing m with
  | nil => rfl
  | cons db rest ih =>
    simp only [List.foldl_cons, tableEntries, List.flatMap_cons, List.foldl_append]
    rw [ih, collectTables_eq]
    rfl

theorem collectReplicatedTables_eq (context : Databases) :
    collectReplicatedTables context = (tableEntries context).foldl collectStep [] :=
  collect_foldl_eq context []

theorem MapsUnique_foldl (es : List (String × String × IStorage)) (m : ReplicatedTables)
    (h : MapsUnique m) : MapsUnique (es.foldl collectStep m) := by
  induction es generalizing m with
  | nil => exact h
  | cons e rest ih =>
    apply ih
    unfold collectStep
    split
    · exact MapsUnique_assignTable _ _ _ _ h
    · exact h

theorem MapsUnique_collect (context : Databases) :
    MapsUnique (collectReplicatedTables context) := by
  rw [collectReplicatedTables_eq]
  apply MapsUnique_foldl
  exact ⟨List.nodup_nil, by intro node hn; cases hn⟩

theorem find2_foldl (es : List (String × String × IStorage)) (m : ReplicatedTables)
    (d t : String) :
    find2 (es.foldl collectStep m) d t = lastAssigned d t es (find2 m d t) := by
  induction es generalizing m with
  | nil => rfl
  | cons e rest ih =>
    simp only [List.foldl_cons, lastAssigned] at ih ⊢
    rw [ih]
    congr 1
    unfold collectStep
    by_cases hr : e.2.2.isReplicated = true
    · simp only [hr, if_true, find2_assignTable, and_true]
      by_cases hk : d = e.1 ∧ t = e.2.1
      · simp [hk.1, hk.2]
      · have hk' : ¬ (e.1 = d ∧ e.2.1 = t) := fun h => hk ⟨h.1.symm, h.2.symm⟩
        simp [hk, hk']
    · simp [hr]

theorem lastAssigned_cons (d t : String) (e : String × String × IStorage)
    (rest : List (String × String × IStorage)) (init : Option IStorage) :
    lastAssigned d t (e :: rest) init =
      lastAssigned d t rest
        (if e.1 = d ∧ e.2.1 = t ∧ e.2.2.isReplicated = true then some e.2.2 else init) := rfl

theorem lastAssigned_none_of_forall (d t : String) (es : List (String × String × IStorage))
    (init : Option IStorage)
    (h : ∀ e ∈ es, ¬ (e.1 = d ∧ e.2.1 = t ∧ e.2.2.isReplicated = true)) :
    lastAssigned d t es init = init := by
  induction es generalizing init with
  | nil => rfl
  | cons e rest ih =>
    simp only [lastAssigned, List.foldl_cons] at ih ⊢
    rw [if_neg (h e (List.mem_cons_self _ _))]
    exact ih init (fun e' he' => h e' (List.mem_cons_of_mem _ he'))

/-- Every storage kept in `replicated_tables` is a replicated one of the catalog. -/
theorem lastAssigned_some (d t : String) (es : List (String × String × IStorage))
    (init : Option IStorage) (st : IStorage) (h : lastAssigned d t es init = some st) :
    ((d, t, st) ∈ es ∧ st.isReplicated = true) ∨ init = some st := by
  induction es generalizing init with
  | nil => exact Or.inr h
  | cons e rest ih =>
    simp only [lastAssigned, List.foldl_cons] at ih h
    rcases ih _ h with h1 | h1
    · exact Or.inl ⟨List.mem_cons_of_mem _ h1.1, h1.2⟩
    · by_cases hk : e.1 = d ∧ e.2.1 = t ∧ e.2.2.isReplicated = true
      · rw [if_pos hk] at h1
        cases h1
        obtain ⟨h1, h2, h3⟩ := hk
        subst h1; subst h2
        exact Or.inl ⟨List.mem_cons_self _ _, h3⟩
      · rw [if_neg hk] at h1
        exact Or.inr h1

theorem lastAssigned_unique (d t : String) (es : List (String × String × IStorage))
    (init : Option IStorage) (hn : (es.map (fun e => (e.1, e.2.1))).Nodup) :
    lastAssigned d t es init =
      match es.find? (fun e => e.1 = d ∧ e.2.1 = t) with
      | some e => if e.2.2.isReplicated = true then some e.2.2 else init
      | none => init := by
  induction es generalizing init with
  | nil => rfl
  | cons e rest ih =>
    simp only [List.map_cons, List.nodup_cons] at hn
    by_cases hk : e.1 = d ∧ e.2.1 = t
    · have hrest : ∀ e' ∈ rest, ¬ (e'.1 = d ∧ e'.2.1 = t ∧ e'.2.2.isReplicated = true) := by
        intro e' he' hc
        apply hn.1
        refine List.mem_map.2 ⟨e', he', ?_⟩
        rw [hc.1, hc.2.1, hk.1, hk.2]
      have hfind : (e :: rest).find? (fun e => e.1 = d ∧ e.2.1 = t) = some e := by
        simp [List.find?, hk]
      rw [hfind, lastAssigned_cons, lastAssigned_none_of_forall d t rest _ hrest]
      by_cases hr : e.2.2.isReplicated = true
      · simp [hk, hr]
      · simp [hr]
    · have hfind : (e :: rest).find? (fun e => e.1 = d ∧ e.2.1 = t) =
          rest.find? (fun e => e.1 = d ∧ e.2.1 = t) := by
        simp [List.find?, hk]
      have hk' : ¬ (e.1 = d ∧ e.2.1 = t ∧ e.2.2.isReplicated = true) :=
        fun h => hk ⟨h.1, h.2.1⟩
      rw [hfind, lastAssigned_cons, if_neg hk']
      exact ih init hn.2

/-- With unique names, `replicated_tables[database][table]` is the storage of that name
in the catalog when it is replicated, and absent otherwise. -/
theorem find2_collect (context : Databases) (hu : UniqueNames context) (d t : String) :
    find2 (collectReplicatedTables context) d t =
      match getTable context d t with
      | some st => if st.isReplicated = true then some st else none
      | none => none := by
  rw [collectReplicatedTables_eq, find2_foldl, lastAssigned_unique d t _ _ hu]
  unfold getTable
  cases (tableEntries context).find? (fun e => e.1 = d ∧ e.2.1 = t) with
  | none => rfl
  | some e => rfl

/-- Without any assumption on names: what `replicated_tables` holds is a replicated
storage of the catalog. -/
theorem find2_collect_some (context : Databases) (d t : String) (st : IStorage)
    (h : find2 (collectReplicatedTables context) d t = some st) :
    (d, t, st) ∈ tableEntries context ∧ st.isReplicated = true := by
  rw [collectReplicatedTables_eq, find2_foldl] at h
  rcases lastAssigned_some d t _ _ st h with h1 | h1
  · exact h1
  · simp [find2, mapFind] at h1

/-- Every replicated table of the catalog has an entry in `replicated_tables`. -/
theorem lastAssigned_isSome (d t : String) (es : List (String × String × IStorage))
    (init : Option IStorage)
    (h : init.isSome = true ∨ ∃ st, (d, t, st) ∈ es ∧ st.isReplicated = true) :
    (lastAssigned d t es init).isSome = true := by
  induction es generalizing init with
  | nil =>
    rcases h with h | ⟨st, h, _⟩
    · exact h
    · cases h
  | cons e rest ih =>
    rw [lastAssigned_cons]
    apply ih
    rcases h with h | ⟨st, h, hr⟩
    · left
      by_cases hk : e.1 = d ∧ e.2.1 = t ∧ e.2.2.isReplicated = true
      · rw [if_pos hk]; rfl
      · rw [if_neg hk]; exact h
    · rcases List.mem_cons.1 h with h | h
      · left
        subst h
        simp [hr]
      · right
        exact ⟨st, h, hr⟩

theorem mem_candidateRows_iff (m : ReplicatedTables) (hm : (mapKeys m).Nodup) (d t : String) :
    (d, t) ∈ candidateRows m ↔ ∃ st, find2 m d t = some st := by
  unfold candidateRows find2
  rw [List.mem_flatMap]
  constructor
  · rintro ⟨node, hnode, hmem⟩
    obtain ⟨table, htable, heq⟩ := List.mem_map.1 hmem
    simp only [Prod.mk.injEq] at heq
    have hfind : mapFind d m = some node.2 := by
      apply mapFind_of_mem hm
      rw [← heq.1]
      exact hnode
    rw [hfind]
    apply (mem_mapKeys_iff t node.2).1
    rw [← heq.2]
    exact List.mem_map.2 ⟨table, htable, rfl⟩
  · rintro ⟨st, hst⟩
    cases hf : mapFind d m with
    | none => rw [hf] at hst; cases hst
    | some tables =>
      rw [hf] at hst
      refine ⟨(d, tables), mapFind_some_mem hf, ?_⟩
      exact List.mem_map.2 ⟨(t, st), mapFind_some_mem hst, rfl⟩

theorem candidateRows_nodup (m : ReplicatedTables) (hm : MapsUnique m) :
    (candidateRows m).Nodup := by
  unfold candidateRows
  rw [List.nodup_flatMap]
  constructor
  · intro node hnode
    have h := hm.2 node hnode
    unfold mapKeys at h
    have h2 : (node.2.map (fun table => (node.1, table.1))) =
        (node.2.map Prod.fst).map (fun name => (node.1, name)) := by
      rw [List.map_map]; rfl
    rw [h2]
    exact h.map (fun a b hab => (Prod.mk.inj hab).2)
  · have h : List.Pairwise (fun a b => a ≠ b) (m.map Prod.fst) := hm.1
    rw [List.pairwise_map] at h
    refine h.imp ?_
    intro a b hab
    show List.Disjoint _ _
    intro x hxa hxb
    obtain ⟨ta, _, hta⟩ := List.mem_map.1 hxa
    obtain ⟨tb, _, htb⟩ := List.mem_map.1 hxb
    apply hab
    rw [← hta] at htb
    exact ((Prod.mk.inj htb).1).symm

/-- The candidate block holds a table exactly when the catalog has a replicated
storage of that name. -/
theorem mem_candidateRows_collect (context : Databases) (d t : String) :
    (d, t) ∈ candidateRows (collectReplicatedTables context) ↔
      ∃ st, (d, t, st) ∈ tableEntries context ∧ st.isReplicated = true := by
  rw [mem_candidateRows_iff _ (MapsUnique_collect context).1]
  constructor
  · rintro ⟨st, hst⟩
    exact ⟨st, find2_collect_some context d t st hst⟩
  · rintro ⟨st, hst⟩
    have h := lastAssigned_isSome d t (tableEntries context) (find2 [] d t) (Or.inr ⟨st, hst⟩)
    rw [← find2_foldl, ← collectReplicatedTables_eq] at h
    cases hf : find2 (collectReplicatedTables context) d t with
    | none => rw [hf] at h; cases h
    | some st' => exact ⟨st', rfl⟩

theorem range_nine : List.range 9 = [0, 1, 2, 3, 4, 5, 6, 7, 8] := by decide

theorem blockNumberArrays_foldl (block_numbers : List (String × Int)) (a b : List Field) :
    block_numbers.foldl
      (fun arrays pair => (arrays.1 ++ [Field.str pair.1], arrays.2 ++ [Field.int64 pair.2]))
      (a, b) =
      (a ++ block_numbers.map (fun pair => Field.str pair.1),
        b ++ block_numbers.map (fun pair => Field.int64 pair.2)) := by
  induction block_numbers generalizing a b with
  | nil => simp
  | cons pair rest ih => simp [List.foldl_cons, ih]

theorem blockNumberArrays_eq (block_numbers : List (String × Int)) :
    blockNumberArrays block_numbers =
      (block_numbers.map (fun pair => Field.str pair.1),
        block_numbers.map (fun pair => Field.int64 pair.2)) := by
  unfold blockNumberArrays
  rw [blockNumberArrays_foldl]
  simp

theorem cloneEmptyColumns_eq : cloneEmptyColumns = columnsOf [] := by
  simp [cloneEmptyColumns, columns, columnsOf, range_nine]

theorem insertStatus_columnsOf (database table : String) (rows : List (List Field))
    (status : MergeTreeMutationStatus) :
    insertStatus database table (columnsOf rows) status =
      columnsOf (rows ++ [specRow database table status]) := by
  simp [insertStatus, columnsOf, range_nine, insertAt, specRow, blockNumberArrays_eq]

theorem foldl_insertStatus (database table : String) (rows : List (List Field))
    (states : List MergeTreeMutationStatus) :
    states.foldl (insertStatus database table) (columnsOf rows) =
      columnsOf (rows ++ states.map (specRow database table)) := by
  induction states generalizing rows with
  | nil => simp
  | cons status rest ih =>
    rw [List.foldl_cons, insertStatus_columnsOf, ih]
    simp

/-- The loop of `read` when every row of the filtered block names an entry of
`replicated_tables` that holds a replicated storage: one provider call per row, in
order, and the rows of the statuses appended in order. -/
theorem readLoop_ok (m : ReplicatedTables) (l : List (String × String))
    (rows : List (List Field))
    (h : ∀ p ∈ l, ∃ states, find2 m p.1 p.2 = some (.StorageReplicatedMergeTree states)) :
    readLoop m l (columnsOf rows) =
      (l.map (fun p => Event.getMutationsStatus p.1 p.2),
        .ok (columnsOf (rows ++ l.flatMap
          (fun p => (entriesIn m p.1 p.2).map (specRow p.1 p.2))))) := by
  induction l generalizing rows with
  | nil => simp [readLoop]
  | cons p rest ih =>
    obtain ⟨database, table⟩ := p
    obtain ⟨states, hs⟩ := h (database, table) (List.mem_cons_self _ _)
    have hrest : ∀ p ∈ rest, ∃ states, find2 m p.1 p.2 =
        some (.StorageReplicatedMergeTree states) :=
      fun p hp => h p (List.mem_cons_of_mem _ hp)
    simp only at hs
    simp only [readLoop, hs, foldl_insertStatus, ih _ hrest, List.map_cons,
      List.flatMap_cons, entriesIn, List.append_assoc]

theorem specRow_length (database table : String) (entry : MergeTreeMutationStatus) :
    (specRow database table entry).length = 9 := rfl

theorem row_nine (r : List Field) (h : r.length = 9) :
    (List.range 9).map (fun j => r.getD j default) = r := by
  match r, h with
  | [_, _, _, _, _, _, _, _, _], _ => simp [range_nine]

theorem resultBlock_rows (rows : List (List Field)) :
    Block.rows (resultBlock (columnsOf rows)) = rows.length := by
  simp [resultBlock, columns, columnsOf, range_nine, Block.rows]

theorem resultBlock_row (rows : List (List Field)) (i : Nat) (hi : i < rows.length) :
    Block.row (resultBlock (columnsOf rows)) i =
      (List.range 9).map (fun j => (rows.get ⟨i, hi⟩).getD j default) := by
  simp [resultBlock, columns, columnsOf, range_nine, Block.row, List.getD_eq_getElem?_getD,
    List.getElem?_map, List.getElem?_eq_getElem hi]

/-- Reading the rows back from the block built of `columnsOf rows` gives `rows`. -/
theorem resultBlock_toRows (rows : List (List Field)) (h : ∀ r ∈ rows, r.length = 9) :
    Block.toRows (resultBlock (columnsOf rows)) = rows := by
  unfold Block.toRows
  rw [resultBlock_rows]
  apply List.ext_getElem
  · simp
  · intro i h1 h2
    have hi : i < rows.length := h2
    rw [List.getElem_map, List.getElem_range, resultBlock_row rows i hi]
    exact row_nine _ (h _ (List.get_mem rows i hi))

theorem resultBlock_names (res_columns : MutableColumns) (h : res_columns.length = 9) :
    Block.names (resultBlock res_columns) = columns.map Prod.fst := by
  match res_columns, h with
  | [_, _, _, _, _, _, _, _, _], _ => rfl

theorem check_ok (column_names : List String) (h : ValidColumns column_names) :
    check column_names = .ok () := by
  induction column_names with
  | nil => rfl
  | cons name rest ih =>
    have h1 : name ∈ columns.map Prod.fst := h name (List.mem_cons_self _ _)
    have h2 : ValidColumns rest := fun n hn => h n (List.mem_cons_of_mem _ hn)
    simp only [check, h1, if_true]
    exact ih h2

theorem check_error (column_names : List String) (h : ¬ ValidColumns column_names) :
    ∃ name, name ∈ column_names ∧ name ∉ columns.map Prod.fst ∧
      check column_names = .error (.UnknownColumn name) := by
  induction column_names with
  | nil => exact absurd (fun n hn => by cases hn) h
  | cons name rest ih =>
    by_cases h1 : name ∈ columns.map Prod.fst
    · have h2 : ¬ ValidColumns rest := by
        intro hv
        apply h
        intro n hn
        rcases List.mem_cons.1 hn with hn | hn
        · rw [hn]; exact h1
        · exact hv n hn
      obtain ⟨n, hn1, hn2, hn3⟩ := ih h2
      refine ⟨n, List.mem_cons_of_mem _ hn1, hn2, ?_⟩
      simp only [check, h1, if_true]
      exact hn3
    · refine ⟨name, List.mem_cons_self _ _, h1, ?_⟩
      simp only [check, h1, if_false]

/-- Every row of the candidate block names an entry of `replicated_tables` that holds
a replicated storage. -/
theorem candidate_found (context : Databases) (p : String × String)
    (hp : p ∈ candidateRows (collectReplicatedTables context)) :
    ∃ states, find2 (collectReplicatedTables context) p.1 p.2 =
      some (.StorageReplicatedMergeTree states) := by
  obtain ⟨st, hst⟩ :=
    (mem_candidateRows_iff _ (MapsUnique_collect context).1 p.1 p.2).1 hp
  have hr := (find2_collect_some context p.1 p.2 st hst).2
  cases st with
  | StorageReplicatedMergeTree states => exact ⟨states, hst⟩
  | other engine => simp [IStorage.isReplicated] at hr

/-- What `read` does when the requested columns are valid and every row the filter
returns is a row of the candidate block. -/
theorem read_eq (column_names : List String)
    (filterBlockWithQuery : List (String × String) → List (String × String))
    (context : Databases) (hv : ValidColumns column_names)
    (hf : ∀ p ∈ filterBlockWithQuery (candidateRows (collectReplicatedTables context)),
      p ∈ candidateRows (collectReplicatedTables context)) :
    (read column_names filterBlockWithQuery context).trace =
        [Event.getDatabases, Event.filterBlockWithQuery] ++
          (filterBlockWithQuery (candidateRows (collectReplicatedTables context))).map
            (fun p => Event.getMutationsStatus p.1 p.2) ∧
      (read column_names filterBlockWithQuery context).result =
        .ok (if (filterBlockWithQuery
              (candidateRows (collectReplicatedTables context))).isEmpty then []
          else [resultBlock (columnsOf
            ((filterBlockWithQuery (candidateRows (collectReplicatedTables context))).flatMap
              (fun p => (entriesIn (collectReplicatedTables context) p.1 p.2).map
                (specRow p.1 p.2))))]) := by
  have hloop := readLoop_ok (collectReplicatedTables context)
    (filterBlockWithQuery (candidateRows (collectReplicatedTables context))) []
    (fun p hp => candidate_found context p (hf p hp))
  rw [← cloneEmptyColumns_eq] at hloop
  unfold read
  rw [check_ok column_names hv]
  simp only
  by_cases he : (filterBlockWithQuery
      (candidateRows (collectReplicatedTables context))).isEmpty = true
  · rw [if_pos he, if_pos he]
    have : filterBlockWithQuery (candidateRows (collectReplicatedTables context)) = [] :=
      List.isEmpty_iff.1 he
    simp [this]
  · rw [if_neg he, if_neg he, hloop]
    simp

theorem read_rows (column_names : List String)
    (filterBlockWithQuery : List (String × String) → List (String × String))
    (context : Databases) (hv : ValidColumns column_names)
    (hf : ∀ p ∈ filterBlockWithQuery (candidateRows (collectReplicatedTables context)),
      p ∈ candidateRows (collectReplicatedTables context)) :
    (read column_names filterBlockWithQuery context).rows =
      some ((filterBlockWithQuery (candidateRows (collectReplicatedTables context))).flatMap
        (fun p => (entriesIn (collectReplicatedTables context) p.1 p.2).map
          (specRow p.1 p.2))) := by
  unfold ReadOutcome.rows
  rw [(read_eq column_names filterBlockWithQuery context hv hf).2]
  by_cases he : (filterBlockWithQuery
      (candidateRows (collectReplicatedTables context))).isEmpty = true
  · have : filterBlockWithQuery (candidateRows (collectReplicatedTables context)) = [] :=
      List.isEmpty_iff.1 he
    simp [this]
  · rw [if_neg he]
    simp only [List.flatMap_cons, List.flatMap_nil, List.append_nil]
    rw [resultBlock_toRows]
    intro r hr
    obtain ⟨p, _, hp⟩ := List.mem_flatMap.1 hr
    obtain ⟨e, _, he⟩ := List.mem_map.1 hp
    rw [← he]
    rfl

theorem entriesIn_collect (context : Databases) (hu : UniqueNames context) (d t : String) :
    entriesIn (collectReplicatedTables context) d t = providerEntries context d t := by
  unfold entriesIn providerEntries
  rw [find2_collect context hu]
  cases getTable context d t with
  | none => rfl
  | some st =>
    cases st with
    | StorageReplicatedMergeTree states => rfl
    | other engine => rfl

theorem filter_mem_candidates
    (filterBlockWithQuery : List (String × String) → List (String × String))
    (hf : FilterContract filterBlockWithQuery) (context : Databases) :
    ∀ p ∈ filterBlockWithQuery (candidateRows (collectReplicatedTables context)),
      p ∈ candidateRows (collectReplicatedTables context) :=
  fun _ hp => (hf _).subset hp

theorem mem_catalogEntries (context : Databases) (database table : String)
    (states : List MergeTreeMutationStatus) (entry : MergeTreeMutationStatus)
    (h : (database, table, IStorage.StorageReplicatedMergeTree states) ∈ tableEntries context)
    (he : entry ∈ states) : entry ∈ catalogEntries context :=
  List.mem_flatMap.2 ⟨_, h, he⟩

theorem insertAt_length (cols : MutableColumns) (n : Nat) (x : Field) :
    (insertAt cols n x).length = cols.length := by
  induction cols generalizing n with
  | nil => rfl
  | cons c cs ih =>
    cases n with
    | zero => rfl
    | succ n => simp [insertAt, ih]

theorem insertStatus_length (database table : String) (cols : MutableColumns)
    (status : MergeTreeMutationStatus) :
    (insertStatus database table cols status).length = cols.length := by
  simp [insertStatus, insertAt_length]

theorem foldl_insertStatus_length (database table : String) (cols : MutableColumns)
    (states : List MergeTreeMutationStatus) :
    (states.foldl (insertStatus database table) cols).length = cols.length := by
  induction states generalizing cols with
  | nil => rfl
  | cons status rest ih => rw [List.foldl_cons, ih, insertStatus_length]

theorem readLoop_length (m : ReplicatedTables) (l : List (String × String))
    (cols res : MutableColumns) (h : (readLoop m l cols).2 = .ok res) :
    res.length = cols.length := by
  induction l generalizing cols with
  | nil =>
    simp only [readLoop] at h
    cases h; rfl
  | cons p rest ih =>
    obtain ⟨database, table⟩ := p
    unfold readLoop at h
    split at h
    · cases h
    · cases h
    · rw [ih _ h, foldl_insertStatus_length]

/-- Every block `read` returns has the nine columns of the table, in their order. -/
theorem read_block_names (column_names : List String)
    (filterBlockWithQuery : List (String × String) → List (String × String))
    (context : Databases) (streams : BlockInputStreams)
    (h : (read column_names filterBlockWithQuery context).result = .ok streams) :
    ∀ b ∈ streams, Block.names b = columns.map Prod.fst := by
  unfold read at h
  split at h
  · cases h
  · simp only at h
    split at h
    · cases h
      intro b hb; cases hb
    · simp only at h
      split at h
      · rename_i res hres
        cases h
        intro b hb
        rw [List.mem_singleton] at hb
        rw [hb]
        apply resultBlock_names
        rw [readLoop_length _ _ _ _ hres]
        rfl
      · cases h

theorem noPredicate_contract : FilterContract noPredicate :=
  fun block => List.Sublist.refl block

theorem databaseEquals_contract (name : String) : FilterContract (databaseEquals name) :=
  fun block => List.filter_sublist block

theorem nameEquals_contract (d t : String) : FilterContract (nameEquals d t) :=
  fun block => List.filter_sublist block

theorem catalog_unique : UniqueNames catalog := by
  unfold UniqueNames
  decide

theorem valid_database_is_done : ValidColumns ["database", "is_done"] := by
  intro name h
  simp only [List.mem_cons, List.mem_singleton, List.not_mem_nil, or_false] at h
  rcases h with h | h <;> subst h <;> decide

theorem catalog_wellFormed : ProvidersWellFormed catalog := by
  intro status h
  have h1 : status = entry0001 := by
    simpa [catalogEntries, tableEntries, catalog, IStorage.mutations] using h
  subst h1
  exact ⟨by decide, by decide⟩

theorem read_rows_invalid (column_names : List String)
    (filterBlockWithQuery : List (String × String) → List (String × String))
    (context : Databases) (h : ¬ ValidColumns column_names) :
    ∃ name, name ∈ column_names ∧ name ∉ columns.map Prod.fst ∧
      read column_names filterBlockWithQuery context =
        { trace := [], result := .error (.UnknownColumn name) } := by
  obtain ⟨name, h1, h2, h3⟩ := check_error column_names h
  refine ⟨name, h1, h2, ?_⟩
  unfold read
  rw [h3]

theorem count_fetch_map (l : List (String × String)) (hn : l.Nodup) (d t : String) :
    List.count (Event.getMutationsStatus d t)
      (l.map (fun p => Event.getMutationsStatus p.1 p.2)) =
      if (d, t) ∈ l then 1 else 0 := by
  induction l with
  | nil => rfl
  | cons p rest ih =>
    obtain ⟨a, b⟩ := p
    rw [List.nodup_cons] at hn
    simp only [List.map_cons, List.count_cons, ih hn.2]
    by_cases h : a = d ∧ b = t
    · obtain ⟨h1, h2⟩ := h
      subst h1; subst h2
      simp [hn.1]
    · have h1 : ¬ (Event.getMutationsStatus a b = Event.getMutationsStatus d t) := by
        intro e; cases e; exact h ⟨rfl, rfl⟩
      have h2 : ¬ ((d, t) = (a, b)) := by
        intro e; cases e; exact h ⟨rfl, rfl⟩
      simp [h1, h2]

/-- With unique names, the candidate block lists the replicated tables of the catalog,
each once. -/
theorem candidateRows_perm (context : Databases) (hu : UniqueNames context) :
    (candidateRows (collectReplicatedTables context)).Perm
      (((tableEntries context).filter (fun e => e.2.2.isReplicated)).map
        (fun e => (e.1, e.2.1))) := by
  have hn2 : (((tableEntries context).filter (fun e => e.2.2.isReplicated)).map
      (fun e => (e.1, e.2.1))).Nodup :=
    List.Sublist.nodup (List.Sublist.map _ (List.filter_sublist _)) hu
  rw [List.perm_ext_iff_of_nodup (candidateRows_nodup _ (MapsUnique_collect context)) hn2]
  rintro ⟨d, t⟩
  rw [mem_candidateRows_collect]
  constructor
  · rintro ⟨st, hst, hr⟩
    exact List.mem_map.2 ⟨(d, t, st), List.mem_filter.2 ⟨hst, hr⟩, rfl⟩
  · intro h
    obtain ⟨e, he, hk⟩ := List.mem_map.1 h
    obtain ⟨he1, he2⟩ := List.mem_filter.1 he
    obtain ⟨d', t', st⟩ := e
    cases hk
    exact ⟨st, he1, he2⟩

/-- With unique names, a name of the catalog has one storage. -/
theorem tableEntries_unique (context : Databases) (hu : UniqueNames context)
    (d t : String) (st st' : IStorage) (h : (d, t, st) ∈ tableEntries context)
    (h' : (d, t, st') ∈ tableEntries context) : st = st' := by
  have key : ∀ (es : List (String × String × IStorage)),
      (es.map (fun e => (e.1, e.2.1))).Nodup → (d, t, st) ∈ es → (d, t, st') ∈ es →
        st = st' := by
    intro es
    induction es with
    | nil => intro _ h; cases h
    | cons e rest ih =>
      intro hn h1 h2
      simp only [List.map_cons, List.nodup_cons] at hn
      rcases List.mem_cons.1 h1 with h1 | h1 <;> rcases List.mem_cons.1 h2 with h2 | h2
      · rw [← h1] at h2; cases h2; rfl
      · exfalso; apply hn.1
        rw [← h1]
        exact List.mem_map.2 ⟨_, h2, rfl⟩
      · exfalso; apply hn.1
        rw [← h2]
        exact List.mem_map.2 ⟨_, h1, rfl⟩
      · exact ih hn.2 h1 h2
  exact key _ hu h h'

/-- The loop ends without an exception only when every row of the filtered block named
an entry of `replicated_tables` holding a replicated storage. -/
theorem readLoop_ok_inv (m : ReplicatedTables) (l : List (String × String))
    (cols res : MutableColumns) (h : (readLoop m l cols).2 = .ok res) :
    ∀ p ∈ l, ∃ states, find2 m p.1 p.2 = some (.StorageReplicatedMergeTree states) := by
  induction l generalizing cols with
  | nil => intro p hp; cases hp
  | cons q rest ih =>
    obtain ⟨database, table⟩ := q
    unfold readLoop at h
    split at h
    · cases h
    · cases h
    · rename_i states hs
      intro p hp
      rcases List.mem_cons.1 hp with hp | hp
      · rw [hp]; exact ⟨states, hs⟩
      · exact ih _ h p hp

/-- The only exception of the loop is that of the storage cast. -/
theorem readLoop_error (m : ReplicatedTables) (l : List (String × String))
    (cols : MutableColumns) (e : Exception) (h : (readLoop m l cols).2 = .error e) :
    ∃ d t, e = .bad_cast d t := by
  induction l generalizing cols with
  | nil => simp [readLoop] at h
  | cons q rest ih =>
    obtain ⟨database, table⟩ := q
    unfold readLoop at h
    split at h
    · cases h; exact ⟨_, _, rfl⟩
    · cases h; exact ⟨_, _, rfl⟩
    · exact ih _ h

/-- The status provider is called only for a row whose storage was found in
`replicated_tables` and is a replicated one. -/
theorem readLoop_fetch_resolved (m : ReplicatedTables) (l : List (String × String))
    (cols : MutableColumns) (d t : String)
    (h : Event.getMutationsStatus d t ∈ (readLoop m l cols).1) :
    ∃ states, find2 m d t = some (.StorageReplicatedMergeTree states) := by
  induction l generalizing cols with
  | nil => simp [readLoop] at h
  | cons q rest ih =>
    obtain ⟨database, table⟩ := q
    unfold readLoop at h
    split at h
    · cases h
    · cases h
    · rename_i states hs
      rcases List.mem_cons.1 h with h | h
      · cases h; exact ⟨states, hs⟩
      · exact ih _ h

theorem columnsOf_length (rows : List (List Field)) : (columnsOf rows).length = 9 := by
  simp [columnsOf]

theorem resultBlock_types (res_columns : MutableColumns) (h : res_columns.length = 9) :
    (resultBlock res_columns).map (fun c => c.type) = columns.map Prod.snd := by
  match res_columns, h with
  | [_, _, _, _, _, _, _, _, _], _ => rfl

/-- Each of the nine columns of the block built of `columnsOf rows` has one value per
row. -/
theorem resultBlock_column_length (rows : List (List Field)) :
    ∀ c ∈ resultBlock (columnsOf rows), c.column.length = rows.length := by
  intro c hc
  simp only [resultBlock, columns, columnsOf, range_nine, List.map_cons, List.map_nil,
    List.zipWith_cons_cons, List.zipWith_nil_right, List.mem_cons, List.not_mem_nil,
    or_false] at hc
  rcases hc with h | h | h | h | h | h | h | h | h <;> subst h <;> simp

/-- The streams `read` returns: none when the filtered block is empty, and otherwise the
one block whose columns hold the rows of the statuses found, in order. -/
theorem read_result_general (column_names : List String)
    (filterBlockWithQuery : List (String × String) → List (String × String))
    (context : Databases) (streams : BlockInputStreams)
    (hres : (read column_names filterBlockWithQuery context).result = .ok streams) :
    (filterBlockWithQuery (candidateRows (collectReplicatedTables context)) = [] ∧
        streams = []) ∨
      streams = [resultBlock (columnsOf
        ((filterBlockWithQuery (candidateRows (collectReplicatedTables context))).flatMap
          (fun p => (entriesIn (collectReplicatedTables context) p.1 p.2).map
            (specRow p.1 p.2))))] := by
  unfold read at hres
  split at hres
  · cases hres
  · simp only at hres
    split at hres
    · rename_i hempty
      cases hres
      exact Or.inl ⟨List.isEmpty_iff.1 hempty, rfl⟩
    · simp only at hres
      split at hres
      · rename_i res hloop
        have hall := readLoop_ok_inv _ _ _ _ hloop
        have hl := readLoop_ok (collectReplicatedTables context)
          (filterBlockWithQuery (candidateRows (collectReplicatedTables context))) [] hall
        rw [← cloneEmptyColumns_eq] at hl
        rw [hl] at hloop
        simp only [List.nil_append, Except.ok.injEq] at hloop
        cases hres
        rw [← hloop]
        exact Or.inr rfl
      · cases hres

/-- Whenever `read` returns rows, every row of the filtered block was found in
`replicated_tables`, and the rows are those of the statuses found, in order. -/
theorem read_rows_general (column_names : List String)
    (filterBlockWithQuery : List (String × String) → List (String × String))
    (context : Databases) (rows : List (List Field))
    (hrows : (read column_names filterBlockWithQuery context).rows = some rows) :
    (∀ p ∈ filterBlockWithQuery (candidateRows (collectReplicatedTables context)),
      ∃ states, find2 (collectReplicatedTables context) p.1 p.2 =
        some (.StorageReplicatedMergeTree states)) ∧
    rows = (filterBlockWithQuery (candidateRows (collectReplicatedTables context))).flatMap
      (fun p => (entriesIn (collectReplicatedTables context) p.1 p.2).map
        (specRow p.1 p.2)) := by
  unfold ReadOutcome.rows read at hrows
  split at hrows
  · rename_i streams hres
    split at hres
    · cases hres
    · simp only at hres
      split at hres
      · rename_i hempty
        have he := List.isEmpty_iff.1 hempty
        cases hres
        rw [he]
        refine ⟨fun p hp => (by cases hp), ?_⟩
        simpa using hrows.symm
      · simp only at hres
        split at hres
        · rename_i res hloop
          have hall := readLoop_ok_inv _ _ _ _ hloop
          refine ⟨hall, ?_⟩
          have hl := readLoop_ok (collectReplicatedTables context)
            (filterBlockWithQuery (candidateRows (collectReplicatedTables context))) [] hall
          rw [← cloneEmptyColumns_eq] at hl
          rw [hl] at hloop
          simp only [List.nil_append, Except.ok.injEq] at hloop
          cases hres
          rw [← hloop] at hrows
          simp only [List.flatMap_cons, List.flatMap_nil, List.append_nil,
            Option.some.injEq] at hrows
          rw [resultBlock_toRows] at hrows
          · exact hrows.symm
          · intro r hr
            obtain ⟨p, _, hp⟩ := List.mem_flatMap.1 hr
            obtain ⟨e, _, he⟩ := List.mem_map.1 hp
            rw [← he]
            rfl
        · cases hres
  · cases hrows

/-- Every output row is the row of a status of a replicated storage of the catalog whose
name is in the filtered block. -/
theorem row_origin (column_names : List String)
    (filterBlockWithQuery : List (String × String) → List (String × String))
    (context : Databases) (rows : List (List Field))
    (hrows : (read column_names filterBlockWithQuery context).rows = some rows)
    (r : List Field) (hr : r ∈ rows) :
    ∃ database table states entry,
      (database, table) ∈
        filterBlockWithQuery (candidateRows (collectReplicatedTables context)) ∧
      (database, table, IStorage.StorageReplicatedMergeTree states) ∈ tableEntries context ∧
      entry ∈ states ∧ r = specRow database table entry := by
  obtain ⟨hall, hrows⟩ := read_rows_general column_names filterBlockWithQuery context rows hrows
  rw [hrows] at hr
  obtain ⟨p, hp, hpr⟩ := List.mem_flatMap.1 hr
  obtain ⟨entry, hentry, he⟩ := List.mem_map.1 hpr
  obtain ⟨states, hs⟩ := hall p hp
  have hin : entriesIn (collectReplicatedTables context) p.1 p.2 = states := by
    unfold entriesIn; rw [hs]
  rw [hin] at hentry
  exact ⟨p.1, p.2, states, entry, hp, (find2_collect_some context p.1 p.2 _ hs).1, hentry,
    he.symm⟩

/-- C1: for valid requested columns, a filter that returns a subsequence of its block
and a catalog with unique names, the rows `read` returns are the concatenation, over the
surviving `(database, table)` rows in the order of the filtered block, of one row per
status the provider of that table returns, in provider order, each row being
`specRow`; so the row count is the sum of the status counts of the surviving tables. -/
theorem read_rows_concat (column_names : List String)
    (filterBlockWithQuery : List (String × String) → List (String × String))
    (context : Databases) (hv : ValidColumns column_names)
    (hf : FilterContract filterBlockWithQuery) (hu : UniqueNames context) :
    ∃ rows, (read column_names filterBlockWithQuery context).rows = some rows ∧
      rows = (filterBlockWithQuery (candidateRows (collectReplicatedTables context))).flatMap
        (fun p => (providerEntries context p.1 p.2).map (specRow p.1 p.2)) ∧
      rows.length =
        ((filterBlockWithQuery (candidateRows (collectReplicatedTables context))).map
          (fun p => (providerEntries context p.1 p.2).length)).sum := by
  refine ⟨_, read_rows column_names filterBlockWithQuery context hv
    (filter_mem_candidates filterBlockWithQuery hf context), ?_, ?_⟩
  · simp only [entriesIn_collect context hu]
  · simp only [entriesIn_collect context hu, List.length_flatMap]
    congr 1
    apply List.map_congr_left
    intro p _
    simp

/-- Scenario A, no predicate: one row, for `db1.t2`, with arrays of length three. -/
theorem read_rows_concat_witness :
    ValidColumns ["database", "is_done"] ∧ FilterContract noPredicate ∧ UniqueNames catalog ∧
      (read ["database", "is_done"] noPredicate catalog).rows =
        some [[ .str "db1", .str "t2", .str "0001", .str "DELETE WHERE x = 1",
          .uint64 1525132800,
          .array [.str "201801", .str "201802", .str "201803"],
          .array [.int64 12, .int64 7, .int64 3], .int64 5, .uint64 0 ]] := by
  refine ⟨valid_database_is_done, noPredicate_contract, catalog_unique, ?_⟩
  obtain ⟨rows, h1, h2, _⟩ := read_rows_concat ["database", "is_done"] noPredicate catalog
    valid_database_is_done noPredicate_contract catalog_unique
  rw [h1, h2]
  rfl

/-- C2: in a call with valid requested columns and a filter that returns a subsequence
of its block, the status provider of a table is called once when its
`(database, table)` row is in the filtered block, and not at all when it is not. -/
theorem fetch_only_survivors (column_names : List String)
    (filterBlockWithQuery : List (String × String) → List (String × String))
    (context : Databases) (hv : ValidColumns column_names)
    (hf : FilterContract filterBlockWithQuery) (database table : String) :
    fetchCount (read column_names filterBlockWithQuery context).trace database table =
      if (database, table) ∈
        filterBlockWithQuery (candidateRows (collectReplicatedTables context))
      then 1 else 0 := by
  unfold fetchCount
  have h0 : List.count (Event.getMutationsStatus database table)
      [Event.getDatabases, Event.filterBlockWithQuery] = 0 := by
    simp [List.count_cons]
  have hn : (filterBlockWithQuery (candidateRows (collectReplicatedTables context))).Nodup :=
    (hf _).nodup (candidateRows_nodup _ (MapsUnique_collect context))
  rw [(read_eq column_names filterBlockWithQuery context hv
    (filter_mem_candidates filterBlockWithQuery hf context)).1, List.count_append,
    count_fetch_map _ hn, h0, Nat.zero_add]

/-- Scenario B, the database is to equal `db2`: the provider of `db1.t2` is not called, the one of
`db2.t3` is called once. -/
theorem fetch_only_survivors_witness :
    ValidColumns ["database", "is_done"] ∧ FilterContract (databaseEquals "db2") ∧
      fetchCount (read ["database", "is_done"] (databaseEquals "db2") catalog).trace
        "db1" "t2" = 0 ∧
      fetchCount (read ["database", "is_done"] (databaseEquals "db2") catalog).trace
        "db2" "t3" = 1 := by
  refine ⟨valid_database_is_done, databaseEquals_contract "db2", ?_, ?_⟩
  · rw [fetch_only_survivors _ _ catalog valid_database_is_done
      (databaseEquals_contract "db2") "db1" "t2"]
    decide
  · rw [fetch_only_survivors _ _ catalog valid_database_is_done
      (databaseEquals_contract "db2") "db2" "t3"]
    decide

/-- C3: when the filtered block is empty, which includes a catalog without replicated
tables under a filter that returns a subsequence of its block, `read` with valid
requested columns returns no stream, hence no rows, and calls no status provider. -/
theorem empty_filter_no_fetch (column_names : List String)
    (filterBlockWithQuery : List (String × String) → List (String × String))
    (context : Databases) (hv : ValidColumns column_names)
    (he : filterBlockWithQuery (candidateRows (collectReplicatedTables context)) = [] ∨
      (FilterContract filterBlockWithQuery ∧
        ∀ e ∈ tableEntries context, e.2.2.isReplicated = false)) :
    (read column_names filterBlockWithQuery context).result = .ok [] ∧
      (read column_names filterBlockWithQuery context).rows = some [] ∧
      (read column_names filterBlockWithQuery context).trace =
        [Event.getDatabases, Event.filterBlockWithQuery] ∧
      ∀ database table,
        fetchCount (read column_names filterBlockWithQuery context).trace database table
          = 0 := by
  have hempty : filterBlockWithQuery (candidateRows (collectReplicatedTables context)) = [] := by
    rcases he with he | ⟨hf, hnone⟩
    · exact he
    · have hc : candidateRows (collectReplicatedTables context) = [] := by
        apply List.eq_nil_iff_forall_not_mem.2
        rintro ⟨d, t⟩ hmem
        obtain ⟨st, hst, hr⟩ := (mem_candidateRows_collect context d t).1 hmem
        have := hnone _ hst
        simp only at this
        rw [this] at hr
        cases hr
      have hs := hf (candidateRows (collectReplicatedTables context))
      rw [hc] at hs ⊢
      exact List.sublist_nil.1 hs
  have hres : read column_names filterBlockWithQuery context =
      { trace := [Event.getDatabases, Event.filterBlockWithQuery], result := .ok [] } := by
    unfold read
    rw [check_ok column_names hv]
    simp [hempty]
  rw [hres]
  refine ⟨rfl, rfl, rfl, ?_⟩
  intro database table
  simp [fetchCount, List.count_cons]

/-- The condition that the database equals `db3` matches no table of the catalog. -/
theorem empty_filter_no_fetch_witness :
    ValidColumns ["database", "is_done"] ∧
      databaseEquals "db3" (candidateRows (collectReplicatedTables catalog)) = [] ∧
      (read ["database", "is_done"] (databaseEquals "db3") catalog).result = .ok [] ∧
      fetchCount (read ["database", "is_done"] (databaseEquals "db3") catalog).trace
        "db1" "t2" = 0 := by
  have he : databaseEquals "db3" (candidateRows (collectReplicatedTables catalog)) = [] := by
    decide
  have h := empty_filter_no_fetch ["database", "is_done"] (databaseEquals "db3") catalog
    valid_database_is_done (Or.inl he)
  exact ⟨valid_database_is_done, he, h.1, h.2.2.2 "db1" "t2"⟩

/-- C4: with unique names in the catalog, the candidate block handed to the filter
lists exactly the replicated tables, each once, its two columns aligned row for row; a
table of another engine is not a row of it and, for every filter that returns a
subsequence of its block and every requested columns, is the `(database, table)` of no
output row. -/
theorem non_replicated_excluded (context : Databases) (hu : UniqueNames context) :
    (candidateRows (collectReplicatedTables context)).Perm
        (((tableEntries context).filter (fun e => e.2.2.isReplicated)).map
          (fun e => (e.1, e.2.1))) ∧
      (candidateRows (collectReplicatedTables context)).Nodup ∧
      (col_database (collectReplicatedTables context)).length =
        (col_table (collectReplicatedTables context)).length ∧
      List.zip (col_database (collectReplicatedTables context))
          (col_table (collectReplicatedTables context)) =
        candidateRows (collectReplicatedTables context) ∧
      ∀ database table engine,
        (database, table, IStorage.other engine) ∈ tableEntries context →
          (database, table) ∉ candidateRows (collectReplicatedTables context) ∧
          ∀ column_names filterBlockWithQuery, FilterContract filterBlockWithQuery →
            ∀ rows, (read column_names filterBlockWithQuery context).rows = some rows →
              ∀ r ∈ rows, rowKey r ≠ some (database, table) := by
  refine ⟨candidateRows_perm context hu, candidateRows_nodup _ (MapsUnique_collect context),
    by simp [col_database, col_table], ?_, ?_⟩
  · unfold col_database col_table
    rw [List.zip_map_left, List.zip_map_right]
    have hz : ∀ l : List (String × String),
        List.map (Prod.map Prod.fst id) (List.map (Prod.map id Prod.snd) (l.zip l)) = l := by
      intro l
      induction l with
      | nil => rfl
      | cons a rest ih =>
        simp only [List.zip_cons_cons, List.map_cons, Prod.map, id, ih]
    exact hz _
  · intro database table engine hmem
    have hnot : (database, table) ∉ candidateRows (collectReplicatedTables context) := by
      intro hc
      obtain ⟨st, hst, hr⟩ := (mem_candidateRows_collect context database table).1 hc
      have := tableEntries_unique context hu database table _ _ hst hmem
      rw [this] at hr
      cases hr
    refine ⟨hnot, ?_⟩
    intro column_names filterBlockWithQuery hf rows hrows r hr hkey
    obtain ⟨d, t, states, entry, hp, _, _, hrow⟩ :=
      row_origin column_names filterBlockWithQuery context rows hrows r hr
    rw [hrow] at hkey
    simp only [specRow, rowKey, Option.some.injEq, Prod.mk.injEq] at hkey
    rw [hkey.1, hkey.2] at hp
    exact hnot ((hf _).subset hp)

/-- Scenario D: `db1.t4` is of another engine; it is no candidate row and no output row,
also when the query asks for that database and that table by name. -/
theorem non_replicated_excluded_witness :
    UniqueNames catalog ∧
      candidateRows (collectReplicatedTables catalog) =
        [("db1", "t1"), ("db1", "t2"), ("db2", "t3")] ∧
      ("db1", "t4") ∉ candidateRows (collectReplicatedTables catalog) ∧
      (read ["database", "is_done"] (nameEquals "db1" "t4") catalog).rows = some [] ∧
      ∀ rows, (read ["database", "is_done"] noPredicate catalog).rows = some rows →
        ∀ r ∈ rows, rowKey r ≠ some ("db1", "t4") := by
  have h := (non_replicated_excluded catalog catalog_unique).2.2.2.2 "db1" "t4" "MergeTree"
    (by simp [tableEntries, catalog])
  exact ⟨catalog_unique, by decide, h.1, by rfl,
    h.2 ["database", "is_done"] noPredicate noPredicate_contract⟩

/-- C5: when a requested column is not one of the nine columns of the table, `read`
ends with `UnknownColumn` for such a name and has made no call at all, to the catalog,
the filter or a status provider; when all requested columns are columns of the table,
`read` does not end with `UnknownColumn`. -/
theorem unknown_column_aborts (column_names : List String)
    (filterBlockWithQuery : List (String × String) → List (String × String))
    (context : Databases) :
    (¬ ValidColumns column_names →
        ∃ name, name ∈ column_names ∧ name ∉ columns.map Prod.fst ∧
          (read column_names filterBlockWithQuery context).result =
            .error (.UnknownColumn name) ∧
          (read column_names filterBlockWithQuery context).trace = []) ∧
      (ValidColumns column_names →
        ∀ name, (read column_names filterBlockWithQuery context).result ≠
          .error (.UnknownColumn name)) := by
  constructor
  · intro h
    obtain ⟨name, h1, h2, h3⟩ := read_rows_invalid column_names filterBlockWithQuery context h
    exact ⟨name, h1, h2, by rw [h3], by rw [h3]⟩
  · intro hv name hres
    unfold read at hres
    rw [check_ok column_names hv] at hres
    simp only at hres
    split at hres
    · cases hres
    · simp only at hres
      split at hres
      · cases hres
      · rename_i e hloop
        cases hres
        obtain ⟨d, t, h⟩ := readLoop_error _ _ _ _ hloop
        cases h

/-- Scenario C: the column `foo` is requested. -/
theorem unknown_column_aborts_witness :
    ¬ ValidColumns ["database", "foo"] ∧
      (read ["database", "foo"] noPredicate catalog).result = .error (.UnknownColumn "foo") ∧
      (read ["database", "foo"] noPredicate catalog).trace = [] := by
  have hn : ¬ ValidColumns ["database", "foo"] := by
    intro h
    have := h "foo" (by simp)
    revert this
    decide
  obtain ⟨name, _, _, _, h4⟩ :=
    (unknown_column_aborts ["database", "foo"] noPredicate catalog).1 hn
  exact ⟨hn, by rfl, h4⟩

/-- C7: every output row of `read` is the row of a status of a replicated storage of the
catalog; its `block_numbers.partition_id` array and its `block_numbers.number` array
have the length of the `block_numbers` of that status, and at every index the two
values are those of the pair of the status at that index. -/
theorem block_number_arrays_paired (column_names : List String)
    (filterBlockWithQuery : List (String × String) → List (String × String))
    (context : Databases) (rows : List (List Field))
    (hrows : (read column_names filterBlockWithQuery context).rows = some rows)
    (r : List Field) (hr : r ∈ rows) :
    ∃ database table states entry ids numbers,
      (database, table, IStorage.StorageReplicatedMergeTree states) ∈ tableEntries context ∧
      entry ∈ states ∧ r = specRow database table entry ∧
      r.getD 5 default = Field.array ids ∧ r.getD 6 default = Field.array numbers ∧
      ids.length = numbers.length ∧ ids.length = entry.block_numbers.length ∧
      ∀ (i : Nat) (hi : i < entry.block_numbers.length),
        ids[i]? = some (Field.str entry.block_numbers[i].1) ∧
        numbers[i]? = some (Field.int64 entry.block_numbers[i].2) := by
  obtain ⟨d, t, states, entry, _, hmem, hentry, hrow⟩ :=
    row_origin column_names filterBlockWithQuery context rows hrows r hr
  refine ⟨d, t, states, entry, entry.block_numbers.map (fun pair => Field.str pair.1),
    entry.block_numbers.map (fun pair => Field.int64 pair.2), hmem, hentry, hrow, ?_, ?_,
    by simp, by simp, ?_⟩
  · rw [hrow]; rfl
  · rw [hrow]; rfl
  · intro i hi
    simp [List.getElem?_map, List.getElem?_eq_getElem hi]

/-- The row of Scenario A pairs `201801` with 12, `201802` with 7 and `201803` with 3. -/
theorem block_number_arrays_paired_witness :
    (read ["database", "is_done"] noPredicate catalog).rows =
        some [specRow "db1" "t2" entry0001] ∧
      ∃ ids numbers,
        (specRow "db1" "t2" entry0001).getD 5 default = Field.array ids ∧
        (specRow "db1" "t2" entry0001).getD 6 default = Field.array numbers ∧
        ids.length = numbers.length := by
  have hrows : (read ["database", "is_done"] noPredicate catalog).rows =
      some [specRow "db1" "t2" entry0001] := by rfl
  obtain ⟨_, _, _, _, ids, numbers, _, _, _, h5, h6, hlen, _⟩ :=
    block_number_arrays_paired ["database", "is_done"] noPredicate catalog _ hrows
      (specRow "db1" "t2" entry0001) (List.mem_singleton.2 rfl)
  exact ⟨hrows, ids, numbers, h5, h6, hlen⟩

/-- C8: when the entries the status providers return have unique partition ids, the
partition ids in the `block_numbers.partition_id` array of every output row of `read`
are pairwise distinct. -/
theorem partition_ids_distinct (column_names : List String)
    (filterBlockWithQuery : List (String × String) → List (String × String))
    (context : Databases) (hw : ProvidersWellFormed context) (rows : List (List Field))
    (hrows : (read column_names filterBlockWithQuery context).rows = some rows)
    (r : List Field) (hr : r ∈ rows) :
    ∃ partition_ids : List String,
      r.getD 5 default = Field.array (partition_ids.map Field.str) ∧
      partition_ids.Nodup ∧ (partition_ids.map Field.str).Nodup := by
  obtain ⟨d, t, states, entry, _, hmem, hentry, hrow⟩ :=
    row_origin column_names filterBlockWithQuery context rows hrows r hr
  have hwf := (hw entry (mem_catalogEntries context d t states entry hmem hentry)).1
  refine ⟨entry.block_numbers.map Prod.fst, ?_, hwf, ?_⟩
  · rw [hrow]
    simp [specRow, List.map_map]
  · exact hwf.map (fun a b hab => by cases hab; rfl)

/-- The partition ids `201801`, `201802`, `201803` of the row of Scenario A. -/
theorem partition_ids_distinct_witness :
    ProvidersWellFormed catalog ∧
      (read ["database", "is_done"] noPredicate catalog).rows =
        some [specRow "db1" "t2" entry0001] ∧
      ∃ partition_ids : List String,
        (specRow "db1" "t2" entry0001).getD 5 default =
          Field.array (partition_ids.map Field.str) ∧ partition_ids.Nodup := by
  have hrows : (read ["database", "is_done"] noPredicate catalog).rows =
      some [specRow "db1" "t2" entry0001] := by rfl
  obtain ⟨ids, h1, h2, _⟩ :=
    partition_ids_distinct ["database", "is_done"] noPredicate catalog catalog_wellFormed _
      hrows (specRow "db1" "t2" entry0001) (List.mem_singleton.2 rfl)
  exact ⟨catalog_wellFormed, hrows, ids, h1, h2⟩

/-- C9: when the entries the status providers return have a non-negative `parts_to_do`,
the value of the `parts_to_do` column of every output row of `read`, the `Int64` copied
from the entry, is greater than or equal to 0. -/
theorem parts_to_do_nonneg (column_names : List String)
    (filterBlockWithQuery : List (String × String) → List (String × String))
    (context : Databases) (hw : ProvidersWellFormed context) (rows : List (List Field))
    (hrows : (read column_names filterBlockWithQuery context).rows = some rows)
    (r : List Field) (hr : r ∈ rows) :
    ∃ parts_to_do : Int, r.getD 7 default = Field.int64 parts_to_do ∧ 0 ≤ parts_to_do := by
  obtain ⟨d, t, states, entry, _, hmem, hentry, hrow⟩ :=
    row_origin column_names filterBlockWithQuery context rows hrows r hr
  refine ⟨entry.parts_to_do, ?_,
    (hw entry (mem_catalogEntries context d t states entry hmem hentry)).2⟩
  rw [hrow]
  rfl

/-- The row of Scenario A has five parts to do. -/
theorem parts_to_do_nonneg_witness :
    ProvidersWellFormed catalog ∧
      (read ["database", "is_done"] noPredicate catalog).rows =
        some [specRow "db1" "t2" entry0001] ∧
      ∃ parts_to_do : Int,
        (specRow "db1" "t2" entry0001).getD 7 default = Field.int64 parts_to_do ∧
        0 ≤ parts_to_do := by
  have hrows : (read ["database", "is_done"] noPredicate catalog).rows =
      some [specRow "db1" "t2" entry0001] := by rfl
  exact ⟨catalog_wellFormed, hrows,
    parts_to_do_nonneg ["database", "is_done"] noPredicate catalog catalog_wellFormed _
      hrows (specRow "db1" "t2" entry0001) (List.mem_singleton.2 rfl)⟩

/-- C10: the materializer computes all columns whatever was requested. For two lists
of requested columns that are both valid, and the same filter and catalog, `read` makes
the same calls and returns the same result; every block it returns has the nine columns
of the table, with their types and in their order, each column holds one value per
status of the tables of the filtered block, and the rows of the block are the full rows
of nine values of these statuses, with no projection to the requested columns. -/
theorem requested_columns_irrelevant (column_names other_names : List String)
    (filterBlockWithQuery : List (String × String) → List (String × String))
    (context : Databases) (hv : ValidColumns column_names) (hv' : ValidColumns other_names) :
    read column_names filterBlockWithQuery context =
        read other_names filterBlockWithQuery context ∧
      ∀ streams, (read column_names filterBlockWithQuery context).result = .ok streams →
        ∀ b ∈ streams,
          Block.names b = columns.map Prod.fst ∧
          b.map (fun c => c.type) = columns.map Prod.snd ∧
          b.length = 9 ∧
          Block.toRows b =
            (filterBlockWithQuery (candidateRows (collectReplicatedTables context))).flatMap
              (fun p => (entriesIn (collectReplicatedTables context) p.1 p.2).map
                (specRow p.1 p.2)) ∧
          ∀ c ∈ b, c.column.length =
            ((filterBlockWithQuery (candidateRows (collectReplicatedTables context))).flatMap
              (fun p => entriesIn (collectReplicatedTables context) p.1 p.2)).length := by
  constructor
  · unfold read
    rw [check_ok column_names hv, check_ok other_names hv']
  · intro streams hres b hb
    rcases read_result_general column_names filterBlockWithQuery context streams hres with
      ⟨_, h⟩ | h
    · rw [h] at hb; cases hb
    · rw [h, List.mem_singleton] at hb
      subst hb
      have hn := resultBlock_names _ (columnsOf_length
        ((filterBlockWithQuery (candidateRows (collectReplicatedTables context))).flatMap
          (fun p => (entriesIn (collectReplicatedTables context) p.1 p.2).map
            (specRow p.1 p.2))))
      refine ⟨hn, resultBlock_types _ (columnsOf_length _), ?_, ?_, ?_⟩
      · have hl := congrArg List.length hn
        simpa [Block.names, columns] using hl
      · apply resultBlock_toRows
        intro r hr
        obtain ⟨p, _, hp⟩ := List.mem_flatMap.1 hr
        obtain ⟨e, _, he⟩ := List.mem_map.1 hp
        rw [← he]
        rfl
      · intro c hc
        rw [resultBlock_column_length _ c hc, List.length_flatMap, List.length_flatMap]
        congr 1
        apply List.map_congr_left
        intro p _
        simp

/-- Requesting `database` alone or `database` and `is_done` gives the same block: nine
columns, and the one row of Scenario A with all its nine values. -/
theorem requested_columns_irrelevant_witness :
    ValidColumns ["database", "is_done"] ∧ ValidColumns ["database"] ∧
      read ["database", "is_done"] noPredicate catalog = read ["database"] noPredicate catalog ∧
      ∃ b, (read ["database"] noPredicate catalog).result = .ok [b] ∧
        Block.names b = ["database", "table", "mutation_id", "command", "create_time",
          "block_numbers.partition_id", "block_numbers.number", "parts_to_do", "is_done"] ∧
        Block.toRows b = [specRow "db1" "t2" entry0001] ∧
        ∀ c ∈ b, c.column.length = 1 := by
  have hv' : ValidColumns ["database"] := by
    intro name h
    rw [List.mem_singleton] at h
    subst h
    decide
  have h := requested_columns_irrelevant ["database", "is_done"] ["database"] noPredicate
    catalog valid_database_is_done hv'
  have hres : (read ["database", "is_done"] noPredicate catalog).result =
      .ok [resultBlock (columnsOf [specRow "db1" "t2" entry0001])] := by rfl
  have hb := h.2 _ hres _ (List.mem_singleton.2 rfl)
  refine ⟨valid_database_is_done, hv', h.1, _, by rw [← h.1]; exact hres, hb.1, ?_, ?_⟩
  · rw [hb.2.2.2.1]; rfl
  · intro c hc
    rw [hb.2.2.2.2 c hc]; rfl

end DB
